import Mathlib

/-!
Shallow embedding of `profit_calc/specifications.py`: a composite
specification algebra (And/Or/Xor/Not over leaf predicates) evaluated
against an employee record ("candidate").

Python exceptions (`KeyError` on a missing dict key, `InvalidOperation`
from `Decimal`, a parse error from `pendulum.parse`) are modelled as the
spec's error kinds carried in an `Except` result.  Exact decimals are
modelled as rationals (`ℚ`), calendar dates as a `Date` record with the
standard civil-calendar day numbering.
-/

namespace ProfitCalc

/-- The error kinds of the spec: a missing candidate field, a field value
that cannot be parsed as the expected type, and an invalid composition
(listed by the spec; included so statements about it are expressible). -/
inductive SpecError where
  | missing_field (key : String)
  | malformed_value (content : String)
  | invalid_composition
deriving DecidableEq, Repr

/-- A raw `salario_bruto` value as stored in the candidate record: either
already an exact decimal or a string still to be converted (Python's
`sanitize` checks `isinstance(raw_salary, Decimal)`). -/
inductive RawSalary where
  | dec (q : ℚ)
  | str (s : String)
deriving DecidableEq, Repr

/-- One employee record.  Python uses an untyped dict; the four recognized
keys become optional fields, `none` standing for an absent key (whose
access raises `KeyError`, surfaced as `SpecError.missing_field`). -/
structure Candidate where
  area : Option String
  cargo : Option String
  salario_bruto : Option RawSalary
  data_de_admissao : Option String
deriving DecidableEq, Repr

/-- Digit list to number, most significant first. -/
def digits_to_nat (l : List Char) : ℕ :=
  l.foldl (fun acc ch => acc * 10 + (ch.toNat - 48)) 0

/-- Models Python's `Decimal(str)` conversion for plain decimal literals:
optional sign, integer part, optional fractional part; anything else is
rejected (Python raises `InvalidOperation`, modelled as `none`). -/
def parse_decimal (s : String) : Option ℚ :=
  let cs := s.toList
  let signed : ℚ × List Char :=
    match cs with
    | '-' :: r => (-1, r)
    | '+' :: r => (1, r)
    | r => (1, r)
  let sign := signed.1
  let rest := signed.2
  let intPart := rest.takeWhile Char.isDigit
  let rest2 := rest.dropWhile Char.isDigit
  match rest2 with
  | [] =>
      if intPart.isEmpty then none
      else some (sign * (digits_to_nat intPart : ℚ))
  | '.' :: fr =>
      let fracPart := fr.takeWhile Char.isDigit
      let rest3 := fr.dropWhile Char.isDigit
      if rest3.isEmpty && !(intPart.isEmpty && fracPart.isEmpty) then
        some (sign * ((digits_to_nat intPart : ℚ)
          + (digits_to_nat fracPart : ℚ) / (10 ^ fracPart.length)))
      else none
  | _ => none

/-- A calendar date (the date part of the timestamps `pendulum.parse`
returns; time-of-day plays no role in the code's comparisons). -/
structure Date where
  year : ℤ
  month : ℕ
  day : ℕ
deriving DecidableEq, Repr

/-- Gregorian leap-year rule. -/
def is_leap_year (y : ℤ) : Bool :=
  (y % 4 == 0 && y % 100 != 0) || (y % 400 == 0)

/-- Number of days in a month of a given year. -/
def days_in_month (y : ℤ) (m : ℕ) : ℕ :=
  if m = 2 then (if is_leap_year y then 29 else 28)
  else if m = 4 ∨ m = 6 ∨ m = 9 ∨ m = 11 then 30
  else 31

/-- Models `pendulum.parse` on the `YYYY-MM-DD` strings the candidates
carry: ten characters, digits in the right places, month and day within
calendar range; anything else is a parse failure (`none`). -/
def parse_date (s : String) : Option Date :=
  match s.toList with
  | [y1, y2, y3, y4, '-', m1, m2, '-', d1, d2] =>
      if [y1, y2, y3, y4, m1, m2, d1, d2].all Char.isDigit then
        let y : ℤ := (digits_to_nat [y1, y2, y3, y4] : ℤ)
        let m := digits_to_nat [m1, m2]
        let d := digits_to_nat [d1, d2]
        if 1 ≤ m ∧ m ≤ 12 ∧ 1 ≤ d ∧ d ≤ days_in_month y m then
          some ⟨y, m, d⟩
        else none
      else none
  | _ => none

/-- Day number of a date in the proleptic Gregorian calendar (days since
1970-01-01, civil-calendar algorithm); the basis for day differences. -/
def day_number (d : Date) : ℤ :=
  let y : ℤ := if d.month ≤ 2 then d.year - 1 else d.year
  let era : ℤ := (if 0 ≤ y then y else y - 399) / 400
  let yoe : ℤ := y - era * 400
  let mp : ℤ := ((d.month : ℤ) + 9) % 12
  let doy : ℤ := (153 * mp + 2) / 5 + (d.day : ℤ) - 1
  let doe : ℤ := yoe * 365 + yoe / 4 - yoe / 100 + doy
  era * 146097 + doe - 719468

/-- Models `a.diff(b).in_days()`: the absolute whole-day difference
between two dates (pendulum periods are absolute by default). -/
def diff_in_days (a b : Date) : ℕ :=
  (day_number b - day_number a).natAbs

/-- Date ordering used to take the absolute period. -/
def date_le (a b : Date) : Bool :=
  decide (a.year < b.year
    ∨ (a.year = b.year
        ∧ (a.month < b.month ∨ (a.month = b.month ∧ a.day ≤ b.day))))

/-- Models `a.diff(b).in_years()`: the number of whole calendar years in
the period between the two dates (year difference, minus one when the
later date's month/day falls before the earlier date's anniversary). -/
def diff_in_years (a b : Date) : ℕ :=
  let lo := if date_le a b then a else b
  let hi := if date_le a b then b else a
  let raw : ℤ := hi.year - lo.year
  let adjust : ℤ :=
    if hi.month < lo.month ∨ (hi.month = lo.month ∧ hi.day < lo.day) then 1
    else 0
  (raw - adjust).toNat

/-- The specification tree, one constructor per Python class that
implements `is_satisfied_by`.  `And`/`Or` are n-ary (their child tuples),
`Xor` binary, `Invert` unary.  Leaf constructors carry the parameters
their `__init__` stores: salary predicates a threshold and an optional
base-salary override, tenure predicates their threshold(s) and the frozen
reference time.  `AdmissionTimeInYearsBetween` stores the two *day*
thresholds as computed at construction (see `mk_admission_between`). -/
inductive Spec where
  | And (specifications : List Spec)
  | Or (specifications : List Spec)
  | Xor (left right : Spec)
  | Invert (specification : Spec)
  | TrueSpecification
  | FalseSpecification
  | DirectorBoard
  | Trainee
  | AccountingDepartment
  | FinancialDepartment
  | ITDepartment
  | FacilitiesDepartment
  | CustomerExperienceDepartment
  | SalaryGreaterThan (threshold : ℚ) (base : Option ℚ)
  | SalaryLessThan (threshold : ℚ) (base : Option ℚ)
  | SalaryBetween (first second : ℚ) (base : Option ℚ)
  | AdmissionTimeInYearsLessThan (threshold : ℤ) (frozen : Date)
  | AdmissionTimeInYearsGreaterThan (threshold : ℤ) (frozen : Date)
  | AdmissionTimeInYearsBetween (initial_threshold end_threshold : ℤ)
      (frozen : Date)

/-- `BASE_DAYS_ON_YEAR` of `AdmissionTimeInYearsBetween`. -/
def BASE_DAYS_ON_YEAR : ℤ := 365

/-- `AdmissionTimeInYearsBetween.__init__`: the year bounds are converted
to day counts (× 365) once, at construction. -/
def mk_admission_between (initial final : ℤ) (frozen : Date) : Spec :=
  .AdmissionTimeInYearsBetween (initial * BASE_DAYS_ON_YEAR)
    (final * BASE_DAYS_ON_YEAR) frozen

/-- Whether a node is an `And` (Python's `isinstance(other, And)`). -/
def is_and : Spec → Bool
  | .And _ => true
  | _ => false

/-- Whether a node is an `Or` (Python's `isinstance(other, Or)`). -/
def is_or : Spec → Bool
  | .Or _ => true
  | _ => false

/-- The `&` operator.  On an `And` left operand (`And.__and__`): an `And`
right operand has its child tuple concatenated onto the left's, any other
operand is appended.  On any other left operand (`Specification.__and__`):
a fresh two-child `And` is allocated, whatever the right operand is. -/
def and_op : Spec → Spec → Spec
  | .And ls, .And rs => .And (ls ++ rs)
  | .And ls, other => .And (ls ++ [other])
  | s, other => .And [s, other]

/-- The `|` operator, symmetric to `and_op` (`Or.__or__` /
`Specification.__or__`). -/
def or_op : Spec → Spec → Spec
  | .Or ls, .Or rs => .Or (ls ++ rs)
  | .Or ls, other => .Or (ls ++ [other])
  | s, other => .Or [s, other]

/-- The `^` operator (`Specification.__xor__`): always a fresh node. -/
def xor_op (l r : Spec) : Spec := .Xor l r

/-- The `~` operator (`Specification.__invert__`): always a fresh node. -/
def invert_op (s : Spec) : Spec := .Invert s

/-- Dict access `candidate["area"]`. -/
def get_area (c : Candidate) : Except SpecError String :=
  match c.area with
  | some a => .ok a
  | none => .error (.missing_field "area")

/-- Dict access `candidate["cargo"]`. -/
def get_cargo (c : Candidate) : Except SpecError String :=
  match c.cargo with
  | some a => .ok a
  | none => .error (.missing_field "cargo")

/-- Dict access `candidate["salario_bruto"]`. -/
def get_salario_bruto (c : Candidate) : Except SpecError RawSalary :=
  match c.salario_bruto with
  | some a => .ok a
  | none => .error (.missing_field "salario_bruto")

/-- `pendulum.parse(candidate["data_de_admissao"])`: dict access then date
parsing, either step failing with the corresponding error. -/
def get_admission (c : Candidate) : Except SpecError Date :=
  match c.data_de_admissao with
  | none => .error (.missing_field "data_de_admissao")
  | some s =>
      match parse_date s with
      | none => .error (.malformed_value s)
      | some d => .ok d

/-- Models Python's `str.lower()` on the character repertoire this
program compares (ASCII letters plus the `ç` of "serviços gerais"). -/
def lower (s : String) : String :=
  ⟨s.data.map fun ch => if ch = 'Ç' then 'ç' else ch.toLower⟩

/-- `BaseSalaryCalculatorMixin.BASE_SALARY = Decimal("1045.0")`. -/
def BASE_SALARY : ℚ := 1045

/-- The mixin's effective base salary: `__init__` overrides the default
only when the `base` argument is provided and truthy (`if base:` — a zero
`Decimal` is falsy and leaves the default in place). -/
def base_salary : Option ℚ → ℚ
  | some b => if b = 0 then BASE_SALARY else b
  | none => BASE_SALARY

/-- `BaseSalaryCalculatorMixin.calculate`: the salary-to-base ratio. -/
def calculate (base : Option ℚ) (raw_salary : ℚ) : ℚ :=
  raw_salary / base_salary base

/-- `BaseSalaryCalculatorMixin.sanitize`: a `Decimal` passes through, any
other value is converted with `Decimal(...)`, whose failure is the
malformed-value error. -/
def sanitize : RawSalary → Except SpecError ℚ
  | .dec q => .ok q
  | .str s =>
      match parse_decimal s with
      | some q => .ok q
      | none => .error (.malformed_value s)

mutual

/-- `is_satisfied_by`, per variant exactly as the Python classes define
it; `eval_list` is the evaluation of a composite's child list (the list
comprehension inside `all(...)`/`any(...)`, which evaluates every child
before aggregating, so a child's exception propagates even when an
earlier child already decided the aggregate). -/
def is_satisfied_by : Spec → Candidate → Except SpecError Bool
  | .And specs, c =>
      match eval_list specs c with
      | .error e => .error e
      | .ok results => .ok (results.all id)
  | .Or specs, c =>
      match eval_list specs c with
      | .error e => .error e
      | .ok results => .ok (results.any id)
  | .Xor l r, c =>
      match is_satisfied_by l c with
      | .error e => .error e
      | .ok a =>
          match is_satisfied_by r c with
          | .error e => .error e
          | .ok b => .ok (a.xor b)
  | .Invert s, c =>
      match is_satisfied_by s c with
      | .error e => .error e
      | .ok a => .ok (!a)
  | .TrueSpecification, _ => .ok true
  | .FalseSpecification, _ => .ok false
  | .DirectorBoard, c =>
      match get_area c with
      | .error e => .error e
      | .ok a => .ok (lower a == "diretoria")
  | .Trainee, c =>
      match get_cargo c with
      | .error e => .error e
      | .ok a => .ok (lower a == "estagiario")
  | .AccountingDepartment, c =>
      match get_area c with
      | .error e => .error e
      | .ok a => .ok (lower a == "contabilidade")
  | .FinancialDepartment, c =>
      match get_area c with
      | .error e => .error e
      | .ok a => .ok (lower a == "financeiro")
  | .ITDepartment, c =>
      match get_area c with
      | .error e => .error e
      | .ok a => .ok (lower a == "tecnologia")
  | .FacilitiesDepartment, c =>
      match get_area c with
      | .error e => .error e
      | .ok a => .ok (lower a == "serviços gerais")
  | .CustomerExperienceDepartment, c =>
      match get_area c with
      | .error e => .error e
      | .ok a => .ok (lower a == "relacionamento com o cliente")
  | .SalaryGreaterThan t base, c =>
      match get_salario_bruto c with
      | .error e => .error e
      | .ok raw =>
          match sanitize raw with
          | .error e => .error e
          | .ok q => .ok (decide (calculate base q > t))
  | .SalaryLessThan t base, c =>
      match get_salario_bruto c with
      | .error e => .error e
      | .ok raw =>
          match sanitize raw with
          | .error e => .error e
          | .ok q => .ok (decide (calculate base q < t))
  | .SalaryBetween f s base, c =>
      match get_salario_bruto c with
      | .error e => .error e
      | .ok raw =>
          match sanitize raw with
          | .error e => .error e
          | .ok q =>
              .ok (decide (f ≤ calculate base q ∧ calculate base q ≤ s))
  | .AdmissionTimeInYearsLessThan t frozen, c =>
      match get_admission c with
      | .error e => .error e
      | .ok d => .ok (decide ((diff_in_years d frozen : ℤ) < t))
  | .AdmissionTimeInYearsGreaterThan t frozen, c =>
      match get_admission c with
      | .error e => .error e
      | .ok d => .ok (decide ((diff_in_years d frozen : ℤ) ≥ t))
  | .AdmissionTimeInYearsBetween lo hi frozen, c =>
      match get_admission c with
      | .error e => .error e
      | .ok d =>
          .ok (decide (lo < (diff_in_days d frozen : ℤ)
            ∧ (diff_in_days d frozen : ℤ) < hi))
termination_by structural s _ => s

/-- Evaluation of every element of a child list, left to right, the list
of results or the first raised error. -/
def eval_list : List Spec → Candidate → Except SpecError (List Bool)
  | [], _ => .ok []
  | s :: rest, c =>
      match is_satisfied_by s c with
      | .error e => .error e
      | .ok b =>
          match eval_list rest c with
          | .error e => .error e
          | .ok bs => .ok (b :: bs)
termination_by structural l _ => l

end

/-- The filtering list comprehension in `And.remainder_unsatisfied_by`:
the children whose `is_satisfied_by` is false, in order; an exception in
any child's evaluation propagates. -/
def filter_unsatisfied : List Spec → Candidate → Except SpecError (List Spec)
  | [], _ => .ok []
  | s :: rest, c =>
      match is_satisfied_by s c with
      | .error e => .error e
      | .ok b =>
          match filter_unsatisfied rest c with
          | .error e => .error e
          | .ok others => .ok (if b then others else s :: others)

/-- `remainder_unsatisfied_by`: the `And` override computes the
unsatisfied children and returns none / the single child / the node
itself (all unsatisfied) / a fresh `And` of the subset, in that order of
checks; every other variant uses the `Specification` default — none when
satisfied, the node itself otherwise. -/
def remainder_unsatisfied_by (s : Spec) (c : Candidate) :
    Except SpecError (Option Spec) :=
  match s with
  | .And specs =>
      match filter_unsatisfied specs c with
      | .error e => .error e
      | .ok non_satisfied =>
          match non_satisfied with
          | [] => .ok none
          | [x] => .ok (some x)
          | _ =>
              if non_satisfied.length = specs.length then
                .ok (some (.And specs))
              else .ok (some (.And non_satisfied))
  | _ =>
      match is_satisfied_by s c with
      | .error e => .error e
      | .ok b => .ok (if b then none else some s)

/-- A child's failure to satisfy, as a boolean on successful evaluation
(used to phrase the unsatisfied subset as a `List.filter`). -/
def unsat (c : Candidate) (s : Spec) : Bool :=
  match is_satisfied_by s c with
  | .ok false => true
  | _ => false

/-! ### Basic lemmas about the combination operators -/

theorem is_and_iff (s : Spec) : is_and s = true ↔ ∃ l, s = .And l := by
  cases s <;> simp [is_and]

theorem is_or_iff (s : Spec) : is_or s = true ↔ ∃ l, s = .Or l := by
  cases s <;> simp [is_or]

theorem and_op_and_and (ls rs : List Spec) :
    and_op (.And ls) (.And rs) = .And (ls ++ rs) := rfl

theorem and_op_and_other (ls : List Spec) (other : Spec)
    (h : is_and other = false) :
    and_op (.And ls) other = .And (ls ++ [other]) := by
  cases other <;> first | rfl | simp [is_and] at h

theorem and_op_other (s other : Spec) (h : is_and s = false) :
    and_op s other = .And [s, other] := by
  cases s <;> first | rfl | simp [is_and] at h

theorem or_op_or_or (ls rs : List Spec) :
    or_op (.Or ls) (.Or rs) = .Or (ls ++ rs) := rfl

theorem or_op_or_other (ls : List Spec) (other : Spec)
    (h : is_or other = false) :
    or_op (.Or ls) other = .Or (ls ++ [other]) := by
  cases other <;> first | rfl | simp [is_or] at h

theorem or_op_other (s other : Spec) (h : is_or s = false) :
    or_op s other = .Or [s, other] := by
  cases s <;> first | rfl | simp [is_or] at h

/-! ### Lemmas about list evaluation -/

theorem eval_list_append (l₁ l₂ : List Spec) (c : Candidate) :
    eval_list (l₁ ++ l₂) c =
      match eval_list l₁ c with
      | .error e => .error e
      | .ok bs₁ =>
          match eval_list l₂ c with
          | .error e => .error e
          | .ok bs₂ => .ok (bs₁ ++ bs₂) := by
  induction l₁ with
  | nil =>
      simp only [List.nil_append, eval_list]
      cases eval_list l₂ c <;> rfl
  | cons s rest ih =>
      simp only [List.cons_append, eval_list, List.append_eq]
      cases hs : is_satisfied_by s c with
      | error e => rfl
      | ok b =>
          rw [ih]
          cases eval_list rest c with
          | error e => rfl
          | ok bs₁ => cases eval_list l₂ c <;> rfl

theorem eval_And_inv (l : List Spec) (c : Candidate) (x : Bool)
    (h : is_satisfied_by (.And l) c = .ok x) :
    ∃ bs, eval_list l c = .ok bs ∧ bs.all id = x := by
  simp only [is_satisfied_by] at h
  cases hh : eval_list l c with
  | error e => rw [hh] at h; simp at h
  | ok bs => rw [hh] at h; simp at h; exact ⟨bs, rfl, h⟩

theorem eval_Or_inv (l : List Spec) (c : Candidate) (x : Bool)
    (h : is_satisfied_by (.Or l) c = .ok x) :
    ∃ bs, eval_list l c = .ok bs ∧ bs.any id = x := by
  simp only [is_satisfied_by] at h
  cases hh : eval_list l c with
  | error e => rw [hh] at h; simp at h
  | ok bs => rw [hh] at h; simp at h; exact ⟨bs, rfl, h⟩

/-- Evaluating the result of `&` under successful evaluation of both
operands: the conjunction of the operand results, whatever the operand
shapes (flattened or fresh node). -/
theorem eval_and_op (a b : Spec) (c : Candidate) (x y : Bool)
    (ha : is_satisfied_by a c = .ok x) (hb : is_satisfied_by b c = .ok y) :
    is_satisfied_by (and_op a b) c = .ok (x && y) := by
  by_cases haa : is_and a = true
  · obtain ⟨ls, rfl⟩ := (is_and_iff a).mp haa
    obtain ⟨bs₁, h₁, hx⟩ := eval_And_inv ls c x ha
    by_cases hbb : is_and b = true
    · obtain ⟨rs, rfl⟩ := (is_and_iff b).mp hbb
      obtain ⟨bs₂, h₂, hy⟩ := eval_And_inv rs c y hb
      rw [and_op_and_and]
      simp only [is_satisfied_by, eval_list_append, h₁, h₂]
      simp [List.all_append, hx, hy]
    · rw [and_op_and_other ls b (Bool.not_eq_true _ ▸ hbb)]
      simp only [is_satisfied_by, eval_list_append, h₁, eval_list, hb]
      simp [List.all_append, hx]
  · rw [and_op_other a b (Bool.not_eq_true _ ▸ haa)]
    simp only [is_satisfied_by, eval_list, ha, hb]
    simp

/-- Evaluating the result of `|` under successful evaluation of both
operands: the disjunction of the operand results. -/
theorem eval_or_op (a b : Spec) (c : Candidate) (x y : Bool)
    (ha : is_satisfied_by a c = .ok x) (hb : is_satisfied_by b c = .ok y) :
    is_satisfied_by (or_op a b) c = .ok (x || y) := by
  by_cases haa : is_or a = true
  · obtain ⟨ls, rfl⟩ := (is_or_iff a).mp haa
    obtain ⟨bs₁, h₁, hx⟩ := eval_Or_inv ls c x ha
    by_cases hbb : is_or b = true
    · obtain ⟨rs, rfl⟩ := (is_or_iff b).mp hbb
      obtain ⟨bs₂, h₂, hy⟩ := eval_Or_inv rs c y hb
      rw [or_op_or_or]
      simp only [is_satisfied_by, eval_list_append, h₁, h₂]
      simp [List.any_append, hx, hy]
    · rw [or_op_or_other ls b (Bool.not_eq_true _ ▸ hbb)]
      simp only [is_satisfied_by, eval_list_append, h₁, eval_list, hb]
      simp [List.any_append, hx]
  · rw [or_op_other a b (Bool.not_eq_true _ ▸ haa)]
    simp only [is_satisfied_by, eval_list, ha, hb]
    simp

/-! ### Lemmas about the unsatisfied-children filter -/

/-- When every child evaluates successfully, the unsatisfied-children
computation succeeds and equals the plain filter by `unsat`. -/
theorem filter_unsatisfied_eq_filter (l : List Spec) (c : Candidate)
    (h : ∀ s ∈ l, ∃ b, is_satisfied_by s c = .ok b) :
    filter_unsatisfied l c = .ok (l.filter (unsat c)) := by
  induction l with
  | nil => rfl
  | cons s rest ih =>
      obtain ⟨b, hb⟩ := h s (List.mem_cons_self s rest)
      have ih' := ih fun x hx => h x (List.mem_cons_of_mem s hx)
      simp only [filter_unsatisfied, hb, ih', List.filter_cons]
      cases b <;> simp [unsat, hb]

/-- The unsatisfied-children computation fails exactly as child-list
evaluation does, with the same (first) error. -/
theorem filter_unsatisfied_error (l : List Spec) (c : Candidate)
    (e : SpecError) (h : filter_unsatisfied l c = .error e) :
    eval_list l c = .error e := by
  induction l with
  | nil => simp [filter_unsatisfied] at h
  | cons s rest ih =>
      simp only [filter_unsatisfied] at h
      simp only [eval_list]
      cases hs : is_satisfied_by s c with
      | error e' => rw [hs] at h; simpa using h
      | ok b =>
          rw [hs] at h
          cases hr : filter_unsatisfied rest c with
          | error e' =>
              rw [hr] at h
              simp at h
              rw [ih (h ▸ hr)]
          | ok others => rw [hr] at h; simp at h

/-- When the unsatisfied-children computation succeeds, so does child-list
evaluation. -/
theorem filter_unsatisfied_ok_eval (l : List Spec) (c : Candidate)
    (ns : List Spec) (h : filter_unsatisfied l c = .ok ns) :
    ∃ bs, eval_list l c = .ok bs := by
  induction l generalizing ns with
  | nil => exact ⟨[], rfl⟩
  | cons s rest ih =>
      simp only [filter_unsatisfied] at h
      cases hs : is_satisfied_by s c with
      | error e => rw [hs] at h; simp at h
      | ok b =>
          rw [hs] at h
          cases hr : filter_unsatisfied rest c with
          | error e => rw [hr] at h; simp at h
          | ok others =>
              obtain ⟨bs, hbs⟩ := ih others hr
              exact ⟨b :: bs, by simp [eval_list, hs, hbs]⟩

/-- The facts about the unsatisfied-children list the remainder analysis
needs, given that child-list evaluation succeeded: the filter
succeeds; it is empty exactly when every child result is true; it is
never longer than the child list; it has full length only when the
conjunction is false (on a non-empty list); and each of its members
evaluates to false. -/
theorem filter_unsatisfied_spec (l : List Spec) (c : Candidate)
    (bs : List Bool) (h : eval_list l c = .ok bs) :
    ∃ ns, filter_unsatisfied l c = .ok ns
      ∧ (ns = [] ↔ bs.all id = true)
      ∧ ns.length ≤ l.length
      ∧ (ns.length = l.length → l ≠ [] → bs.all id = false)
      ∧ (∀ x ∈ ns, is_satisfied_by x c = .ok false) := by
  induction l generalizing bs with
  | nil =>
      simp only [eval_list] at h
      obtain rfl : ([] : List Bool) = bs := by simpa using h
      exact ⟨[], rfl, by simp, by simp, by simp, by simp⟩
  | cons s rest ih =>
      simp only [eval_list] at h
      cases hs : is_satisfied_by s c with
      | error e => rw [hs] at h; simp at h
      | ok b =>
          rw [hs] at h
          cases hr : eval_list rest c with
          | error e => rw [hr] at h; simp at h
          | ok bs' =>
              rw [hr] at h
              simp only at h
              obtain rfl : b :: bs' = bs := by simpa using h
              obtain ⟨ns', hf', hiff, hle, hfull, hmem⟩ := ih bs' hr
              cases b with
              | true =>
                  refine ⟨ns', by simp [filter_unsatisfied, hs, hf'], ?_, ?_, ?_, hmem⟩
                  · simpa using hiff
                  · exact hle.trans (Nat.le_succ _)
                  · intro hlen _
                    rw [List.length_cons] at hlen
                    omega
              | false =>
                  refine ⟨s :: ns', by simp [filter_unsatisfied, hs, hf'], ?_, ?_, ?_, ?_⟩
                  · simp
                  · simpa using Nat.succ_le_succ hle
                  · intro _ _; simp
                  · intro x hx
                    rcases List.mem_cons.mp hx with rfl | hx'
                    · exact hs
                    · exact hmem x hx'

/-- A list of children that all evaluate to false evaluates to the
all-false list. -/
theorem eval_list_all_false (l : List Spec) (c : Candidate)
    (h : ∀ x ∈ l, is_satisfied_by x c = .ok false) :
    eval_list l c = .ok (l.map fun _ => false) := by
  induction l with
  | nil => rfl
  | cons s rest ih =>
      have hs := h s (List.mem_cons_self s rest)
      have ih' := ih fun x hx => h x (List.mem_cons_of_mem s hx)
      simp [eval_list, hs, ih']

/-- A non-empty `And` all of whose children are unsatisfied is itself
unsatisfied. -/
theorem eval_And_false_of_all_unsat (l : List Spec) (c : Candidate)
    (hne : l ≠ []) (h : ∀ x ∈ l, is_satisfied_by x c = .ok false) :
    is_satisfied_by (.And l) c = .ok false := by
  have he := eval_list_all_false l c h
  simp only [is_satisfied_by, he]
  cases l with
  | nil => exact absurd rfl hne
  | cons s rest => simp

/-- `remainder_unsatisfied_by` on any non-`And` variant follows the
`Specification` base-class default. -/
theorem remainder_default (s : Spec) (c : Candidate) (h : is_and s = false) :
    remainder_unsatisfied_by s c =
      match is_satisfied_by s c with
      | .error e => .error e
      | .ok b => .ok (if b then none else some s) := by
  cases s <;> first | rfl | simp [is_and] at h

/-! ### Concrete records used as witnesses -/

/-- A candidate with every field absent. -/
def cand0 : Candidate := ⟨none, none, none, none⟩

/-- The spec's example candidate (area Tecnologia, cargo Analista, salary
5225.00, admitted 2019-01-01). -/
def cand_tecnologia : Candidate :=
  ⟨some "Tecnologia", some "Analista", some (.dec 5225), some "2019-01-01"⟩

/-- A candidate whose salary and admission-date fields hold unparseable
strings. -/
def cand_malformed : Candidate :=
  ⟨none, none, some (.str "abc"), some "abc"⟩

/-! ### Claims -/

/-- C2: for all specifications `a`, `b` and every candidate,
`(a AND b).is_satisfied_by` is the conjunction of the operands' results,
`(a OR b)` the disjunction, `(a XOR b)` the boolean exclusive-or (with
the truth table (T,T)→F, (T,F)→T, (F,T)→T, (F,F)→F), and `(NOT a)` the
negation. -/
theorem composition_truth_tables (a b : Spec) (c : Candidate) (x y : Bool)
    (ha : is_satisfied_by a c = .ok x) (hb : is_satisfied_by b c = .ok y) :
    is_satisfied_by (and_op a b) c = .ok (x && y)
    ∧ is_satisfied_by (or_op a b) c = .ok (x || y)
    ∧ is_satisfied_by (xor_op a b) c = .ok (x.xor y)
    ∧ is_satisfied_by (invert_op a) c = .ok (!x)
    ∧ (Bool.xor true true = false ∧ Bool.xor true false = true
        ∧ Bool.xor false true = true ∧ Bool.xor false false = false) := by
  refine ⟨eval_and_op a b c x y ha hb, eval_or_op a b c x y ha hb,
    ?_, ?_, by decide⟩
  · simp [xor_op, is_satisfied_by, ha, hb]
  · simp [invert_op, is_satisfied_by, ha]

/-- C2 witness at `a = TrueSpecification`, `b = FalseSpecification`. -/
theorem composition_truth_tables_witness :
    is_satisfied_by (and_op .TrueSpecification .FalseSpecification) cand0
      = .ok false
    ∧ is_satisfied_by (or_op .TrueSpecification .FalseSpecification) cand0
      = .ok true := by
  have h := composition_truth_tables .TrueSpecification .FalseSpecification
    cand0 true false rfl rfl
  exact ⟨h.1, h.2.1⟩

/-- C3: for all operands `a`, `b`, `c` that are not `And` nodes (`Or`,
`Xor`, `Not`, leaves and constants included), `(a AND b) AND c` is a
single `And` with children `[a, b, c]` evaluating to `a && b && c`;
combining two `And` operands concatenates the right child list onto the
left; symmetrically for `Or` with operands that are not `Or` nodes. -/
theorem left_nested_flattening (a b c' : Spec) (cand : Candidate)
    (x y z : Bool)
    (hx : is_satisfied_by a cand = .ok x)
    (hy : is_satisfied_by b cand = .ok y)
    (hz : is_satisfied_by c' cand = .ok z) :
    (is_and a = false → is_and b = false → is_and c' = false →
      and_op (and_op a b) c' = .And [a, b, c']
      ∧ is_satisfied_by (and_op (and_op a b) c') cand = .ok (x && y && z))
    ∧ (∀ ls rs, and_op (.And ls) (.And rs) = .And (ls ++ rs))
    ∧ (is_or a = false → is_or b = false → is_or c' = false →
      or_op (or_op a b) c' = .Or [a, b, c']
      ∧ is_satisfied_by (or_op (or_op a b) c') cand = .ok (x || y || z))
    ∧ (∀ ls rs, or_op (.Or ls) (.Or rs) = .Or (ls ++ rs)) := by
  refine ⟨fun ha _ hc => ?_, fun ls rs => rfl, fun ha' _ hc' => ?_,
    fun ls rs => rfl⟩
  · have h1 : and_op a b = .And [a, b] := and_op_other a b ha
    have h2 : and_op (.And [a, b]) c' = .And [a, b, c'] := by
      simpa using and_op_and_other [a, b] c' hc
    refine ⟨by rw [h1, h2], ?_⟩
    rw [h1, h2]
    simp [is_satisfied_by, eval_list, hx, hy, hz, Bool.and_assoc]
  · have h3 : or_op a b = .Or [a, b] := or_op_other a b ha'
    have h4 : or_op (.Or [a, b]) c' = .Or [a, b, c'] := by
      simpa using or_op_or_other [a, b] c' hc'
    refine ⟨by rw [h3, h4], ?_⟩
    rw [h3, h4]
    simp [is_satisfied_by, eval_list, hx, hy, hz, Bool.or_assoc]

/-- C3 witness: the AND half applied with an `Or` node as first operand
(the archetypal rule shape), and both halves at constant leaves. -/
theorem left_nested_flattening_witness :
    and_op (and_op (Spec.Or [Spec.TrueSpecification, Spec.FalseSpecification])
          Spec.FalseSpecification) Spec.TrueSpecification
      = Spec.And [Spec.Or [Spec.TrueSpecification, Spec.FalseSpecification],
          Spec.FalseSpecification, Spec.TrueSpecification]
    ∧ is_satisfied_by
        (and_op (and_op
            (Spec.Or [Spec.TrueSpecification, Spec.FalseSpecification])
            Spec.FalseSpecification) Spec.TrueSpecification) cand0
      = .ok false
    ∧ or_op (or_op Spec.TrueSpecification Spec.FalseSpecification)
          Spec.FalseSpecification
      = Spec.Or [Spec.TrueSpecification, Spec.FalseSpecification,
          Spec.FalseSpecification]
    ∧ is_satisfied_by
        (or_op (or_op Spec.TrueSpecification Spec.FalseSpecification)
          Spec.FalseSpecification) cand0 = .ok true := by
  have h := left_nested_flattening
    (Spec.Or [Spec.TrueSpecification, Spec.FalseSpecification])
    Spec.FalseSpecification Spec.TrueSpecification cand0 true false true
    rfl rfl rfl
  have h' := left_nested_flattening Spec.TrueSpecification
    Spec.FalseSpecification Spec.FalseSpecification cand0 true false false
    rfl rfl rfl
  exact ⟨(h.1 rfl rfl rfl).1, (h.1 rfl rfl rfl).2,
    (h'.2.2.1 rfl rfl rfl).1, (h'.2.2.1 rfl rfl rfl).2⟩

/-- C6 counterexample: a tree built through the composition operators in
which an `And` node's child list contains an `And` node — when the left
operand of `&` is not an `And`, a fresh two-child `And` wraps both
operands and a right-operand `And` stays nested. -/
theorem flattening_not_both_positions_cex :
    and_op Spec.TrueSpecification
        (and_op Spec.TrueSpecification Spec.FalseSpecification)
      = Spec.And [Spec.TrueSpecification,
          Spec.And [Spec.TrueSpecification, Spec.FalseSpecification]]
    ∧ Spec.And [Spec.TrueSpecification, Spec.FalseSpecification]
        ∈ [Spec.TrueSpecification,
            Spec.And [Spec.TrueSpecification, Spec.FalseSpecification]]
    ∧ is_and (Spec.And [Spec.TrueSpecification, Spec.FalseSpecification])
        = true :=
  ⟨rfl, by simp, rfl⟩

/-- C6 amended: merging happens only when the left operand is of the
same associative kind — an `And` left operand concatenates an `And`
right operand's children (left before right) and appends any other
operand; a non-`And` left operand always yields a fresh two-child `And`,
so a right-operand `And` remains nested; symmetrically for `Or`. -/
theorem flattening_left_operand_only (ls rs : List Spec) (s other : Spec) :
    and_op (.And ls) (.And rs) = .And (ls ++ rs)
    ∧ (is_and other = false → and_op (.And ls) other = .And (ls ++ [other]))
    ∧ (is_and s = false → and_op s other = .And [s, other])
    ∧ or_op (.Or ls) (.Or rs) = .Or (ls ++ rs)
    ∧ (is_or other = false → or_op (.Or ls) other = .Or (ls ++ [other]))
    ∧ (is_or s = false → or_op s other = .Or [s, other]) :=
  ⟨rfl, and_op_and_other ls other, and_op_other s other,
    rfl, or_op_or_other ls other, or_op_other s other⟩

/-- C6 amended witness at concrete operands. -/
theorem flattening_left_operand_only_witness :
    and_op (.And [Spec.TrueSpecification]) (.And [Spec.FalseSpecification])
      = Spec.And [Spec.TrueSpecification, Spec.FalseSpecification]
    ∧ and_op (.And [Spec.TrueSpecification]) Spec.FalseSpecification
      = Spec.And [Spec.TrueSpecification, Spec.FalseSpecification]
    ∧ and_op Spec.TrueSpecification Spec.FalseSpecification
      = Spec.And [Spec.TrueSpecification, Spec.FalseSpecification] := by
  have h := flattening_left_operand_only [Spec.TrueSpecification]
    [Spec.FalseSpecification] Spec.TrueSpecification Spec.FalseSpecification
  exact ⟨h.1, h.2.1 rfl, h.2.2.1 rfl⟩

/-- C7 counterexample: evaluating an `And` or `Or` with zero children
does not surface an `InvalidComposition` error — `all([])`/`any([])`
return plain booleans. -/
theorem empty_composite_no_error_cex :
    is_satisfied_by (Spec.And []) cand0 = .ok true
    ∧ is_satisfied_by (Spec.Or []) cand0 = .ok false
    ∧ ¬ is_satisfied_by (Spec.And []) cand0
        = .error .invalid_composition
    ∧ ¬ is_satisfied_by (Spec.Or []) cand0
        = .error .invalid_composition := by
  refine ⟨rfl, rfl, fun h => ?_, fun h => ?_⟩ <;>
    simp [is_satisfied_by, eval_list] at h

/-- C7 amended: evaluating `is_satisfied_by` on an `And` node with zero
children returns true and on an `Or` node with zero children returns
false; no error (in particular no `InvalidComposition`) is surfaced. -/
theorem empty_composite_evaluates (c : Candidate) :
    is_satisfied_by (Spec.And []) c = .ok true
    ∧ is_satisfied_by (Spec.Or []) c = .ok false :=
  ⟨rfl, rfl⟩

/-- C8: for every candidate an `And` with an empty child list is
satisfied (vacuously true), an `Or` with an empty child list is
unsatisfied, and both evaluations return a boolean rather than failing. -/
theorem empty_and_vacuously_true (c : Candidate) :
    is_satisfied_by (Spec.And []) c = .ok true
    ∧ is_satisfied_by (Spec.Or []) c = .ok false :=
  ⟨rfl, rfl⟩

/-- C1: on an `And` with a non-empty child list whose children all
evaluate successfully, `remainder_unsatisfied_by` computes the subset of
children unsatisfied by the candidate (the filter by `unsat`) and
returns, checked in this order: none when the subset is empty; the
single child itself when exactly one child is unsatisfied; the `And`
node itself when every child is unsatisfied; otherwise a new `And`
built from exactly the unsatisfied children. -/
theorem and_remainder_unsatisfied_subset (specs : List Spec) (c : Candidate)
    (hne : specs ≠ [])
    (hok : ∀ s ∈ specs, ∃ b, is_satisfied_by s c = .ok b) :
    (specs.filter (unsat c) = [] →
        remainder_unsatisfied_by (.And specs) c = .ok none)
    ∧ (∀ x, specs.filter (unsat c) = [x] →
        remainder_unsatisfied_by (.And specs) c = .ok (some x))
    ∧ (2 ≤ (specs.filter (unsat c)).length →
        (specs.filter (unsat c)).length = specs.length →
        remainder_unsatisfied_by (.And specs) c = .ok (some (.And specs)))
    ∧ (2 ≤ (specs.filter (unsat c)).length →
        (specs.filter (unsat c)).length ≠ specs.length →
        remainder_unsatisfied_by (.And specs) c
          = .ok (some (.And (specs.filter (unsat c))))) := by
  have hf := filter_unsatisfied_eq_filter specs c hok
  refine ⟨?_, ?_, ?_, ?_⟩
  · intro h
    simp only [remainder_unsatisfied_by, hf, h]
  · intro x h
    simp only [remainder_unsatisfied_by, hf, h]
  · intro h2 heq
    rcases hu : specs.filter (unsat c) with _ | ⟨a, _ | ⟨b, r⟩⟩ <;>
      rw [hu] at h2
    · simp at h2
    · simp at h2
    · rw [hu] at heq
      simp only [remainder_unsatisfied_by, hf, hu]
      rw [if_pos heq]
  · intro h2 hne'
    rcases hu : specs.filter (unsat c) with _ | ⟨a, _ | ⟨b, r⟩⟩ <;>
      rw [hu] at h2
    · simp at h2
    · simp at h2
    · rw [hu] at hne'
      simp only [remainder_unsatisfied_by, hf, hu]
      rw [if_neg hne']

/-- C1 witness: four children of which exactly the two middle ones fail,
so the remainder is a fresh `And` of those two. -/
theorem and_remainder_unsatisfied_subset_witness :
    remainder_unsatisfied_by
        (.And [.TrueSpecification, .FalseSpecification, .FalseSpecification,
          .TrueSpecification]) cand0
      = .ok (some (.And [.FalseSpecification, .FalseSpecification])) := by
  have h := and_remainder_unsatisfied_subset
    [.TrueSpecification, .FalseSpecification, .FalseSpecification,
      .TrueSpecification] cand0 (by simp)
    (by
      intro s hs
      simp only [List.mem_cons, List.not_mem_nil, or_false] at hs
      rcases hs with rfl | rfl | rfl | rfl
      · exact ⟨true, rfl⟩
      · exact ⟨false, rfl⟩
      · exact ⟨false, rfl⟩
      · exact ⟨true, rfl⟩)
  exact h.2.2.2 (by decide) (by decide)

/-- C10: `remainder_unsatisfied_by` returns none exactly when
`is_satisfied_by` returns true; every variant that does not override the
default (every non-`And`) returns itself as the non-null remainder; and
every non-null remainder, the `And`-specific subset remainder included,
is itself unsatisfied by the same candidate. -/
theorem remainder_contract (s : Spec) (c : Candidate) :
    (remainder_unsatisfied_by s c = .ok none
      ↔ is_satisfied_by s c = .ok true)
    ∧ (is_and s = false → is_satisfied_by s c = .ok false →
        remainder_unsatisfied_by s c = .ok (some s))
    ∧ (∀ r, remainder_unsatisfied_by s c = .ok (some r) →
        is_satisfied_by r c = .ok false) := by
  by_cases hand : is_and s = true
  · obtain ⟨l, rfl⟩ := (is_and_iff s).mp hand
    refine ⟨?_, fun hcontra _ => by simp [is_and] at hcontra, fun r hr => ?_⟩
    · constructor
      · intro h
        cases hfil : filter_unsatisfied l c with
        | error e => simp [remainder_unsatisfied_by, hfil] at h
        | ok ns =>
            obtain ⟨bs, hbs⟩ := filter_unsatisfied_ok_eval l c ns hfil
            obtain ⟨ns', hf', hiff, -, -, -⟩ :=
              filter_unsatisfied_spec l c bs hbs
            have hns : ns' = ns := Except.ok.inj (hf'.symm.trans hfil)
            subst hns
            simp only [is_satisfied_by, hbs]
            rcases ns' with _ | ⟨a, _ | ⟨b, r⟩⟩
            · rw [hiff.mp rfl]
            · simp [remainder_unsatisfied_by, hfil] at h
            · simp only [remainder_unsatisfied_by, hfil] at h
              split at h <;> simp at h
      · intro h
        obtain ⟨bs, hbs, hall⟩ := eval_And_inv l c true h
        obtain ⟨ns, hfil, hiff, -, -, -⟩ := filter_unsatisfied_spec l c bs hbs
        obtain rfl : ns = [] := hiff.mpr hall
        simp [remainder_unsatisfied_by, hfil]
    · cases hfil : filter_unsatisfied l c with
      | error e => simp [remainder_unsatisfied_by, hfil] at hr
      | ok ns =>
          obtain ⟨bs, hbs⟩ := filter_unsatisfied_ok_eval l c ns hfil
          obtain ⟨ns', hf', hiff, hle, hfull, hmem⟩ :=
            filter_unsatisfied_spec l c bs hbs
          have hns : ns' = ns := Except.ok.inj (hf'.symm.trans hfil)
          subst hns
          rcases ns' with _ | ⟨a, _ | ⟨b, rest⟩⟩
          · simp [remainder_unsatisfied_by, hfil] at hr
          · simp only [remainder_unsatisfied_by, hfil] at hr
            have har : a = r := Option.some.inj (Except.ok.inj hr)
            subst har
            exact hmem a (by simp)
          · simp only [remainder_unsatisfied_by, hfil] at hr
            split at hr
            · next hcond =>
                have hlr : Spec.And l = r :=
                  Option.some.inj (Except.ok.inj hr)
                subst hlr
                have hlne : l ≠ [] := by
                  intro hnil
                  rw [hnil] at hcond
                  simp at hcond
                have hfalse := hfull hcond hlne
                simp only [is_satisfied_by, hbs]
                rw [hfalse]
            · have hlr : Spec.And (a :: b :: rest) = r :=
                Option.some.inj (Except.ok.inj hr)
              subst hlr
              exact eval_And_false_of_all_unsat _ c (by simp) hmem
  · have hand' : is_and s = false := by
      cases hh : is_and s
      · rfl
      · exact absurd hh hand
    have hdef := remainder_default s c hand'
    refine ⟨?_, fun _ hfalse => by rw [hdef, hfalse]; rfl, fun r hr => ?_⟩
    · rw [hdef]
      cases he : is_satisfied_by s c with
      | error e => simp
      | ok b => cases b <;> simp
    · rw [hdef] at hr
      cases he : is_satisfied_by s c with
      | error e => rw [he] at hr; simp at hr
      | ok b =>
          rw [he] at hr
          cases b with
          | true => simp at hr
          | false =>
              obtain rfl : s = r := by simpa using hr
              exact he

/-- C10 witness at a constant-false leaf: its remainder is itself, and
that remainder is unsatisfied. -/
theorem remainder_contract_witness :
    remainder_unsatisfied_by Spec.FalseSpecification cand0
      = .ok (some .FalseSpecification)
    ∧ is_satisfied_by Spec.FalseSpecification cand0 = .ok false := by
  have h := remainder_contract Spec.FalseSpecification cand0
  have h1 := h.2.1 rfl rfl
  exact ⟨h1, h.2.2 Spec.FalseSpecification h1⟩

/-- C4: on a candidate with a parseable admission date,
`AdmissionTimeInYearsBetween` (built from year bounds) holds iff
`initial*365 < d < final*365` strictly on both ends, where `d` is the
whole-day difference between admission date and frozen reference time;
`AdmissionTimeInYearsLessThan` holds iff the whole-year difference is
strictly below its threshold; `AdmissionTimeInYearsGreaterThan` holds iff
the whole-year difference is at least its threshold. -/
theorem admission_predicate_bounds (initial final t : ℤ) (frozen : Date)
    (c : Candidate) (s : String) (d : Date)
    (hc : c.data_de_admissao = some s) (hp : parse_date s = some d) :
    (is_satisfied_by (mk_admission_between initial final frozen) c = .ok true
      ↔ initial * 365 < (diff_in_days d frozen : ℤ)
        ∧ (diff_in_days d frozen : ℤ) < final * 365)
    ∧ (is_satisfied_by (.AdmissionTimeInYearsLessThan t frozen) c = .ok true
      ↔ (diff_in_years d frozen : ℤ) < t)
    ∧ (is_satisfied_by (.AdmissionTimeInYearsGreaterThan t frozen) c
        = .ok true
      ↔ (diff_in_years d frozen : ℤ) ≥ t) := by
  refine ⟨?_, ?_, ?_⟩ <;>
    simp [is_satisfied_by, mk_admission_between, BASE_DAYS_ON_YEAR,
      get_admission, hc, hp, decide_eq_true_iff]

/-- C4 witness on the spec's example candidate (admitted 2019-01-01,
reference time 2024-01-01: 1826 whole days, within (365, 3650)). -/
theorem admission_predicate_bounds_witness :
    is_satisfied_by (mk_admission_between 1 10 ⟨2024, 1, 1⟩)
      cand_tecnologia = .ok true := by
  have h := admission_predicate_bounds 1 10 2 ⟨2024, 1, 1⟩ cand_tecnologia
    "2019-01-01" ⟨2019, 1, 1⟩ rfl (by decide)
  exact h.1.mpr (by decide)

/-- C5: on a candidate whose `salario_bruto` is an exact decimal, the
salary predicates compare the ratio salary ÷ base-salary (base defaulting
to 1045, overridable): `SalaryBetween` is inclusive at both endpoints,
`SalaryGreaterThan`/`SalaryLessThan` are strict and therefore unsatisfied
when the ratio equals the threshold exactly. -/
theorem salary_predicate_bounds (q t f s : ℚ) (base : Option ℚ)
    (c : Candidate) (hc : c.salario_bruto = some (.dec q)) :
    calculate base q = q / base_salary base
    ∧ (is_satisfied_by (.SalaryBetween f s base) c = .ok true
        ↔ f ≤ calculate base q ∧ calculate base q ≤ s)
    ∧ (is_satisfied_by (.SalaryGreaterThan t base) c = .ok true
        ↔ calculate base q > t)
    ∧ (is_satisfied_by (.SalaryLessThan t base) c = .ok true
        ↔ calculate base q < t)
    ∧ (calculate base q = t →
        is_satisfied_by (.SalaryGreaterThan t base) c = .ok false
        ∧ is_satisfied_by (.SalaryLessThan t base) c = .ok false)
    ∧ (calculate base q = f → f ≤ s →
        is_satisfied_by (.SalaryBetween f s base) c = .ok true)
    ∧ (calculate base q = s → f ≤ s →
        is_satisfied_by (.SalaryBetween f s base) c = .ok true)
    ∧ base_salary none = 1045 := by
  refine ⟨rfl, ?_, ?_, ?_, fun ht => ?_, fun hf hfs => ?_,
    fun hs hfs => ?_, rfl⟩
  · simp [is_satisfied_by, get_salario_bruto, hc, sanitize,
      decide_eq_true_iff]
  · simp [is_satisfied_by, get_salario_bruto, hc, sanitize,
      decide_eq_true_iff]
  · simp [is_satisfied_by, get_salario_bruto, hc, sanitize,
      decide_eq_true_iff]
  · constructor <;>
      simp [is_satisfied_by, get_salario_bruto, hc, sanitize, ht]
  · simp [is_satisfied_by, get_salario_bruto, hc, sanitize, hf, hfs]
  · simp [is_satisfied_by, get_salario_bruto, hc, sanitize, hs, hfs]

/-- C5 witness on the spec's example salary 5225.00 (ratio exactly 5
against the default base 1045): GreaterThan(4) holds, GreaterThan(5)
fails at the exact threshold, Between(5, 10) holds at its lower
endpoint. -/
theorem salary_predicate_bounds_witness :
    is_satisfied_by (.SalaryGreaterThan 4 none) cand_tecnologia = .ok true
    ∧ is_satisfied_by (.SalaryGreaterThan 5 none) cand_tecnologia
      = .ok false
    ∧ is_satisfied_by (.SalaryBetween 5 10 none) cand_tecnologia
      = .ok true := by
  have h4 := salary_predicate_bounds 5225 4 0 10 none cand_tecnologia rfl
  have h5 := salary_predicate_bounds 5225 5 5 10 none cand_tecnologia rfl
  refine ⟨?_, ?_, ?_⟩
  · exact h4.2.2.1.mpr (by norm_num [calculate, base_salary, BASE_SALARY])
  · exact (h5.2.2.2.2.1
      (by norm_num [calculate, base_salary, BASE_SALARY])).1
  · exact h5.2.2.2.2.2.1
      (by norm_num [calculate, base_salary, BASE_SALARY]) (by norm_num)

/-- C9: every leaf predicate fails with a `MissingField` error naming the
field it reads when that field is absent, and with a `MalformedValue`
error when the field is present but cannot be parsed as the expected type
(decimal for salary, calendar date for admission). -/
theorem leaf_predicate_errors (c : Candidate) (t f s : ℚ) (base : Option ℚ)
    (ti lo hi : ℤ) (frozen : Date) (v : String) :
    (c.area = none →
        is_satisfied_by .DirectorBoard c = .error (.missing_field "area")
        ∧ is_satisfied_by .AccountingDepartment c
            = .error (.missing_field "area")
        ∧ is_satisfied_by .FinancialDepartment c
            = .error (.missing_field "area")
        ∧ is_satisfied_by .ITDepartment c = .error (.missing_field "area")
        ∧ is_satisfied_by .FacilitiesDepartment c
            = .error (.missing_field "area")
        ∧ is_satisfied_by .CustomerExperienceDepartment c
            = .error (.missing_field "area"))
    ∧ (c.cargo = none →
        is_satisfied_by .Trainee c = .error (.missing_field "cargo"))
    ∧ (c.salario_bruto = none →
        is_satisfied_by (.SalaryGreaterThan t base) c
            = .error (.missing_field "salario_bruto")
        ∧ is_satisfied_by (.SalaryLessThan t base) c
            = .error (.missing_field "salario_bruto")
        ∧ is_satisfied_by (.SalaryBetween f s base) c
            = .error (.missing_field "salario_bruto"))
    ∧ (c.data_de_admissao = none →
        is_satisfied_by (.AdmissionTimeInYearsLessThan ti frozen) c
            = .error (.missing_field "data_de_admissao")
        ∧ is_satisfied_by (.AdmissionTimeInYearsGreaterThan ti frozen) c
            = .error (.missing_field "data_de_admissao")
        ∧ is_satisfied_by (.AdmissionTimeInYearsBetween lo hi frozen) c
            = .error (.missing_field "data_de_admissao"))
    ∧ (c.salario_bruto = some (.str v) → parse_decimal v = none →
        is_satisfied_by (.SalaryGreaterThan t base) c
            = .error (.malformed_value v)
        ∧ is_satisfied_by (.SalaryLessThan t base) c
            = .error (.malformed_value v)
        ∧ is_satisfied_by (.SalaryBetween f s base) c
            = .error (.malformed_value v))
    ∧ (c.data_de_admissao = some v → parse_date v = none →
        is_satisfied_by (.AdmissionTimeInYearsLessThan ti frozen) c
            = .error (.malformed_value v)
        ∧ is_satisfied_by (.AdmissionTimeInYearsGreaterThan ti frozen) c
            = .error (.malformed_value v)
        ∧ is_satisfied_by (.AdmissionTimeInYearsBetween lo hi frozen) c
            = .error (.malformed_value v)) := by
  refine ⟨fun h => ?_, fun h => ?_, fun h => ?_, fun h => ?_,
    fun h hp => ?_, fun h hp => ?_⟩ <;>
    simp [is_satisfied_by, get_area, get_cargo, get_salario_bruto,
      get_admission, sanitize, *]

/-- C9 witness: a candidate with no `area` key, an unparseable salary
string and an unparseable date string. -/
theorem leaf_predicate_errors_witness :
    is_satisfied_by .ITDepartment cand_malformed
      = .error (.missing_field "area")
    ∧ is_satisfied_by (.SalaryGreaterThan 4 none) cand_malformed
      = .error (.malformed_value "abc")
    ∧ is_satisfied_by (.AdmissionTimeInYearsLessThan 2 ⟨2024, 1, 1⟩)
        cand_malformed = .error (.malformed_value "abc") := by
  have h := leaf_predicate_errors cand_malformed 4 0 10 none 2 1 10
    ⟨2024, 1, 1⟩ "abc"
  exact ⟨(h.1 rfl).2.2.2.1, (h.2.2.2.2.1 rfl (by decide)).1,
    (h.2.2.2.2.2 rfl (by decide)).1⟩

end ProfitCalc
